import Mathlib

/-!
Shallow embedding of the grid-index, geometry and file-format core of the
flopy discretization (mfdis.py) and evapotranspiration (mfevt.py) packages,
together with theorems settling the frozen claims about them.

Numeric model: elevations, spacings and stress-period scalars are modelled
as exact rationals; node and index arithmetic is modelled on natural
numbers (all quantities involved are non-negative, and Python integer
division on non-negative operands is floor division, which is Nat
division).
-/

namespace Flopy

/-! ### Node index arithmetic (ModflowDis.get_node / ModflowDis.get_lrc) -/

/-- Embedding of the per-element body of `ModflowDis.get_node`
(mfdis.py lines 236-240): `node = (k-1)*nrc + (i-1)*ncol + j` with
`nrc = nrow*ncol`.  The Python method maps this over a list; the element
function carries all the content. -/
def get_node (nrow ncol k i j : Nat) : Nat :=
  (k - 1) * (nrow * ncol) + (i - 1) * ncol + j

/-- Embedding of the per-element body of `ModflowDis.get_lrc`
(mfdis.py lines 211-222): `k = node // nrc`, incremented when
`k*nrc < node`; `ij = node - (k-1)*nrc`; the row is obtained from `ij`
and `ncol` the same way; `j = ij - (i-1)*ncol`. -/
def get_lrc (nrow ncol node : Nat) : Nat × Nat × Nat :=
  let nrc := nrow * ncol
  let k0 := node / nrc
  let k := if k0 * nrc < node then k0 + 1 else k0
  let ij := node - (k - 1) * nrc
  let i0 := ij / ncol
  let i := if i0 * ncol < ij then i0 + 1 else i0
  let j := ij - (i - 1) * ncol
  (k, i, j)

/-- One decoding step of `get_lrc`: from `n = (a-1)*m + r` with
`1 ≤ r ≤ m`, the ceiling-style quotient computed by the code recovers
`a`. -/
theorem decode_step (m a r : Nat) (ha : 1 ≤ a) (hr1 : 1 ≤ r) (hrm : r ≤ m) :
    (if (((a - 1) * m + r) / m) * m < (a - 1) * m + r
      then ((a - 1) * m + r) / m + 1
      else ((a - 1) * m + r) / m) = a := by
  have hm : 0 < m := lt_of_lt_of_le hr1 hrm
  rcases lt_or_eq_of_le hrm with hlt | heq
  · have h1 : (a - 1) * m + r = m * (a - 1) + r := by ring
    have hdiv : ((a - 1) * m + r) / m = a - 1 := by
      rw [h1, Nat.mul_add_div hm, Nat.div_eq_of_lt hlt]
      omega
    rw [hdiv]
    have h2 : (a - 1) * m < (a - 1) * m + r := by omega
    rw [if_pos h2]
    omega
  · have h2 : a - 1 + 1 = a := by omega
    have h3 : (a - 1 + 1) * m = (a - 1) * m + m := Nat.succ_mul _ _
    rw [h2] at h3
    have hn : (a - 1) * m + r = a * m := by
      rw [heq]; linarith [h3]
    have hdiv : ((a - 1) * m + r) / m = a := by
      rw [hn, Nat.mul_comm a m]
      exact Nat.mul_div_cancel_left a hm
    rw [hdiv, hn]
    simp

/-- Claim C1: for every grid with positive dimensions and every 1-based
triple `(k, i, j)` within bounds, `get_lrc` applied to
`get_node (k, i, j)` returns exactly `(k, i, j)`. -/
theorem get_lrc_get_node (nlay nrow ncol k i j : Nat)
    (hk1 : 1 ≤ k) (hk2 : k ≤ nlay) (hi1 : 1 ≤ i) (hi2 : i ≤ nrow)
    (hj1 : 1 ≤ j) (hj2 : j ≤ ncol) :
    get_lrc nrow ncol (get_node nrow ncol k i j) = (k, i, j) := by
  have hcol : 0 < ncol := lt_of_lt_of_le hj1 hj2
  have hrow : 0 < nrow := lt_of_lt_of_le hi1 hi2
  set r : Nat := (i - 1) * ncol + j with hr
  have hr1 : 1 ≤ r := by omega
  have hrm : r ≤ nrow * ncol := by
    have h1 : (i - 1) * ncol + j ≤ (nrow - 1) * ncol + ncol := by
      have : (i - 1) * ncol ≤ (nrow - 1) * ncol :=
        Nat.mul_le_mul_right ncol (by omega)
      omega
    have h2 : (nrow - 1) * ncol + ncol = nrow * ncol := by
      cases nrow with
      | zero => omega
      | succ n0 => simp [Nat.succ_mul]
    omega
  have hnode : get_node nrow ncol k i j = (k - 1) * (nrow * ncol) + r := by
    simp [get_node, hr, Nat.add_assoc]
  have houter := decode_step (nrow * ncol) k r hk1 hr1 hrm
  have hinner := decode_step ncol i j hi1 hj1 hj2
  simp only [get_lrc, hnode]
  rw [houter]
  have hsub : (k - 1) * (nrow * ncol) + r - (k - 1) * (nrow * ncol) = r := by
    omega
  rw [hsub]
  rw [hr] at *
  rw [hinner]
  have hsub2 : (i - 1) * ncol + j - (i - 1) * ncol = j := by omega
  rw [hsub2]

/-- Witness for C1: on the spec scenario grid `nlay=2, nrow=2, ncol=2`,
`get_node (2,2,2) = 8` and decoding returns `(2,2,2)`. -/
theorem get_lrc_get_node_witness :
    get_lrc 2 2 (get_node 2 2 2 2 2) = (2, 2, 2) :=
  get_lrc_get_node 2 2 2 2 2 2 (by decide) (by decide) (by decide)
    (by decide) (by decide) (by decide)

/-! ### Grid geometry (ModflowDis thickness, volumes, laycbd) -/

/-- Grid-geometry state of a `ModflowDis` instance: dimensions, spacing
vectors and elevation arrays (float32 arrays modelled as exact
rationals; arrays modelled as total index functions, only indices below
the stored dimensions are meaningful). -/
structure Dis where
  nlay : Nat
  nrow : Nat
  ncol : Nat
  delr : Nat → ℚ
  delc : Nat → ℚ
  top : Nat → Nat → ℚ
  botm : Nat → Nat → Nat → ℚ

/-- Embedding of the `ModflowDis.thickness` property (mfdis.py lines
354-371): `top - botm[0]` for the first layer and `botm[k-1] - botm[k]`
for every later layer `k`. -/
def thickness (d : Dis) (l r c : Nat) : ℚ :=
  if l = 0 then d.top r c - d.botm 0 r c
  else d.botm (l - 1) r c - d.botm l r c

/-- Embedding of `ModflowDis.checklayerthickness` (mfdis.py lines
138-143): `(self.thickness > 0).all()`, the elementwise strict
positivity test over the full `(nlay, nrow, ncol)` thickness array. -/
def checklayerthickness (d : Dis) : Bool :=
  (List.range d.nlay).all fun l =>
    (List.range d.nrow).all fun r =>
      (List.range d.ncol).all fun c => decide (0 < thickness d l r c)

/-- Claim C5: `checklayerthickness` returns true if and only if every
cell's thickness (computed as `top - botm[0]` for layer 1 and
`botm[k-1] - botm[k]` for later layers) is strictly positive. -/
theorem checklayerthickness_iff (d : Dis) :
    checklayerthickness d = true ↔
      ∀ l < d.nlay, ∀ r < d.nrow, ∀ c < d.ncol, 0 < thickness d l r c := by
  simp [checklayerthickness, List.all_eq_true, List.mem_range]

/-- Embedding of `ModflowDis.get_cell_volumes` (mfdis.py lines 145-161).
The Python code allocates the result with `np.empty`, whose contents are
whatever values the uninitialized buffer happens to hold; the parameter
`init` stands for those unspecified contents.  The three loops then
multiply layer thickness, row spacing `delc` and column spacing `delr`
into the buffer in place, never initializing it. -/
def get_cell_volumes (init : Nat → Nat → Nat → ℚ) (d : Dis) (l r c : Nat) : ℚ :=
  init l r c * thickness d l r c * d.delc r * d.delr c

/-- Grid of the spec scenario for cell volumes: `delr=[10,20]`,
`delc=[5,5]`, `top=1`, `botm=[0,-1]`, so every cell of both layers has
thickness 1 and the claimed volume of cell `(0,0,0)` is 50. -/
def volumeScenario : Dis where
  nlay := 2
  nrow := 2
  ncol := 2
  delr := fun c => if c = 0 then 10 else 20
  delc := fun _ => 5
  top := fun _ _ => 1
  botm := fun l _ _ => if l = 0 then 0 else -1

/-- Claim C2 (code bug): on the spec scenario grid the claimed volume of
cell `(0,0,0)` is `thickness * delc * delr = 50`, but the code multiplies
those factors into an uninitialized `np.empty` buffer, so its result is
the arbitrary buffer contents times 50: a buffer holding 1 yields 50,
while a buffer holding 0 yields 0 ≠ 50. -/
theorem get_cell_volumes_uninitialized :
    thickness volumeScenario 0 0 0 * volumeScenario.delc 0 * volumeScenario.delr 0 = 50 ∧
    get_cell_volumes (fun _ _ _ => 1) volumeScenario 0 0 0 = 50 ∧
    get_cell_volumes (fun _ _ _ => 0) volumeScenario 0 0 0 = 0 ∧
    (0 : ℚ) ≠ 50 := by
  refine ⟨?_, ?_, ?_, by norm_num⟩ <;>
    norm_num [get_cell_volumes, thickness, volumeScenario]

/-- Scalar-or-array constructor argument, as accepted by the util_2d
array wrapper used throughout `ModflowDis.__init__`. -/
inductive ScalarOrList (α : Type) where
  | scalar (v : α)
  | arr (l : List α)

/-- Modelled from the spec: the broadcast step of the util_2d array
wrapper (flopy.utils.util_2d is not under src/).  Per the spec, a
scalar constructor argument is broadcast to the required shape and a
sequence must already have that shape (a mismatch is a shape error,
modelled as `none`). -/
def broadcast1d {α : Type} (n : Nat) : ScalarOrList α → Option (List α)
  | .scalar v => some (List.replicate n v)
  | .arr l => if l.length = n then some l else none

/-- Embedding of the laycbd initialization in `ModflowDis.__init__`
(mfdis.py lines 108-110): broadcast the argument to length `nlay`, then
force the last element to 0 (`self.laycbd[-1] = 0`). -/
def initLaycbd (nlay : Nat) (laycbd : ScalarOrList Int) : Option (List Int) :=
  (broadcast1d nlay laycbd).map fun l => l.set (l.length - 1) 0

/-- Setting the last position of a nonempty list makes its last element
the written value. -/
theorem getLast?_set_last {α : Type} (l : List α) (v : α) (h : l ≠ []) :
    (l.set (l.length - 1) v).getLast? = some v := by
  have hlen : 0 < l.length := List.length_pos.mpr h
  rw [List.getLast?_eq_getElem?, List.length_set]
  rw [List.getElem?_set_eq_of_lt v (by omega)]

/-- Claim C4: for every positive `nlay` and every constructor input
`laycbd` (scalar or length-`nlay` sequence of any integers), the
constructed laycbd sequence has 0 as its last element. -/
theorem initLaycbd_last (nlay : Nat) (laycbd : ScalarOrList Int)
    (out : List Int) (hn : 1 ≤ nlay) (hout : initLaycbd nlay laycbd = some out) :
    out.getLast? = some 0 := by
  rcases laycbd with v | l
  · simp only [initLaycbd, broadcast1d, Option.map_some', Option.some.injEq] at hout
    rw [← hout]
    exact getLast?_set_last _ 0 (by simp; omega)
  · simp only [initLaycbd, broadcast1d] at hout
    by_cases hl : l.length = nlay
    · rw [if_pos hl] at hout
      simp only [Option.map_some', Option.some.injEq] at hout
      rw [← hout]
      exact getLast?_set_last _ 0 (by intro hnil; rw [hnil] at hl; simp at hl; omega)
    · rw [if_neg hl] at hout
      simp at hout

/-- Witness for C4: `nlay = 2` with the all-ones input `laycbd = [1, 1]`
constructs `[1, 0]`, whose last element is 0. -/
theorem initLaycbd_last_witness :
    1 ≤ 2 ∧ ([1, 0] : List Int).getLast? = some 0 :=
  ⟨by decide,
   initLaycbd_last 2 (ScalarOrList.arr [1, 1]) [1, 0] (by decide) (by decide)⟩

/-! ### Absence of range checking in get_lrc / get_node (claim C7) -/

/-- Claim C7 counterexample: on the grid `nlay=2, nrow=2, ncol=2` (valid
nodes 1..8), `get_lrc 9` does not fail: it returns the ordinary
arithmetic decode `(3, 1, 1)`, whose layer 3 is outside `[1, 2]`; and
`get_node` on the out-of-range triple `(1, 1, 3)` does not fail either:
it returns the same node as the valid triple `(1, 2, 1)`.  Neither
function raises anything on out-of-range input. -/
theorem get_lrc_out_of_range_counterexample :
    get_lrc 2 2 9 = (3, 1, 1) ∧ ¬(3 ≤ 2) ∧
    get_node 2 2 1 1 3 = get_node 2 2 1 2 1 := by decide

/-- Claim C7 amended: neither function performs any range checking.
`get_lrc` applied to a node strictly above `nlay*nrow*ncol` returns an
ordinary triple whose layer component exceeds `nlay`, and `get_node`
encodes every triple arithmetically, so a column overflowing by `j`
aliases the triple one row down. -/
theorem get_lrc_get_node_no_bounds_check (nlay nrow ncol node k i j : Nat)
    (hrow : 0 < nrow) (hcol : 0 < ncol)
    (hnode : nlay * (nrow * ncol) < node) (hi : 1 ≤ i) :
    nlay < (get_lrc nrow ncol node).1 ∧
    get_node nrow ncol k i (ncol + j) = get_node nrow ncol k (i + 1) j := by
  constructor
  · have hnrc : 0 < nrow * ncol := Nat.mul_pos hrow hcol
    have hk0 : nlay ≤ node / (nrow * ncol) :=
      (Nat.le_div_iff_mul_le hnrc).mpr (le_of_lt hnode)
    rcases lt_or_eq_of_le hk0 with hlt | heq
    · by_cases hc : node / (nrow * ncol) * (nrow * ncol) < node
      · simp only [get_lrc, if_pos hc]
        omega
      · simp only [get_lrc, if_neg hc]
        omega
    · have hc : node / (nrow * ncol) * (nrow * ncol) < node := by
        rw [← heq]
        exact hnode
      simp only [get_lrc, if_pos hc]
      omega
  · have hmul : (i - 1) * ncol + ncol = i * ncol := by
      have h3 : (i - 1 + 1) * ncol = (i - 1) * ncol + ncol := Nat.succ_mul _ _
      have h2 : i - 1 + 1 = i := by omega
      rw [h2] at h3
      omega
    have hmul2 : (i + 1 - 1) * ncol = i * ncol := by
      have h2 : i + 1 - 1 = i := by omega
      rw [h2]
    simp only [get_node, hmul2]
    omega

/-- Witness for C7 amended: on the `2 × 2 × 2` grid, node 9 decodes to a
layer above 2 and column 3 of row 1 aliases column 1 of row 2. -/
theorem get_lrc_get_node_no_bounds_check_witness :
    0 < 2 ∧ 2 * (2 * 2) < 9 ∧ 1 ≤ 1 ∧
    (2 < (get_lrc 2 2 9).1 ∧ get_node 2 2 1 1 (2 + 1) = get_node 2 2 1 2 1) :=
  ⟨by decide, by decide, by decide,
   get_lrc_get_node_no_bounds_check 2 2 2 9 1 1 1 (by decide) (by decide)
     (by decide) (by decide)⟩

/-! ### Fixed-width text fields (Python format specifications) -/

/-- Left padding with spaces to width `w`, as Python right-justifies a
formatted number narrower than its field width (a wider value is
emitted in full, without truncation). -/
def padLeft (w : Nat) (s : List Char) : List Char :=
  List.replicate (w - s.length) ' ' ++ s

/-- Decimal characters of an integer, as Python renders an int. -/
def intChars (n : Int) : List Char :=
  if n < 0 then '-' :: Nat.toDigits 10 n.natAbs else Nat.toDigits 10 n.natAbs

/-- Python integer field of width `w` (format specification `wd`):
the decimal rendering right-justified with spaces. -/
def fmtInt (w : Nat) (n : Int) : List Char := padLeft w (intChars n)

/-- Rational rounded to 6 decimal places: the value denoted by a
Python fixed-point `f` rendering with the default 6 decimals.  Python
rounds the underlying double, with ties to even; exact ties do not
arise in the claims settled here and rounding is modelled as
round-half-up. -/
def round6 (q : ℚ) : ℚ := (round (q * 1000000) : ℤ) / 1000000

/-- Zero-padded 6-digit fraction field of a fixed-point rendering. -/
def frac6Chars (m : Nat) : List Char :=
  List.replicate (6 - (Nat.toDigits 10 m).length) '0' ++ Nat.toDigits 10 m

/-- Characters of the Python fixed-point rendering `f` with the default
6 decimal places: optional sign, integer part, point, 6 fraction
digits. -/
def fixed6 (q : ℚ) : List Char :=
  let n : ℤ := round (q * 1000000)
  (if n < 0 then ['-'] else []) ++
    Nat.toDigits 10 (n.natAbs / 1000000) ++
      '.' :: frac6Chars (n.natAbs % 1000000)

/-- Python float field of width `w` (format specification `wf`): the
6-decimal fixed-point rendering right-justified with spaces. -/
def fmtFixed (w : Nat) (q : ℚ) : List Char := padLeft w (fixed6 q)

/-- Embedding of the per-stress-period line emitted by
`ModflowDis.write_file` (mfdis.py lines 399-407): perlen in a 14-wide
6-decimal field, nstp in a 14-wide integer field, tsmult in a 10-wide
6-decimal field and a trailing space, all from the first format string;
then a space and the steady tag in a 3-wide left-justified string field
(the 2-letter tag plus a fill space), then the newline. -/
def periodLine (perlen : ℚ) (nstp : Int) (tsmult : ℚ) (steady : Bool) : List Char :=
  fmtFixed 14 perlen ++ fmtInt 14 nstp ++ fmtFixed 10 tsmult ++ [' '] ++
    [' '] ++ (if steady then ['S', 'S', ' '] else ['T', 'R', ' ']) ++ ['\n']

/-- The per-stress-period line as claim C6 describes it: perlen in a
14-character float field, nstp in a 10-character integer field, tsmult
in a 10-character float field, followed by the 2-character SS or TR
tag. -/
def periodLineClaimed (perlen : ℚ) (nstp : Int) (tsmult : ℚ) (steady : Bool) : List Char :=
  fmtFixed 14 perlen ++ fmtInt 10 nstp ++ fmtFixed 10 tsmult ++
    (if steady then ['S', 'S'] else ['T', 'R']) ++ ['\n']

/-- Claim C6 counterexample: for the period `perlen=1, nstp=1, tsmult=1,
steady`, the line actually emitted differs from the line the claim
describes: the code formats nstp in a 14-character field (format 14d),
not a 10-character one, and pads the tag to 3 characters after two
spaces. -/
theorem periodLine_counterexample :
    periodLine 1 1 1 true ≠ periodLineClaimed 1 1 1 true := by
  have hr : (round ((1 : ℚ) * 1000000) : ℤ) = 1000000 := by
    norm_num [round_eq]
  simp only [periodLine, periodLineClaimed, fmtFixed, fixed6, hr]
  decide

/-- Claim C6 amended: the emitted per-period line is 44 characters; its
first 14 characters are the perlen float field, the next 14 (not 10)
the nstp integer field, the next 10 the tsmult float field, and the
remainder is two spaces, the 2-letter SS/TR tag, a fill space and the
newline (whenever each formatted value fits its field width). -/
theorem periodLine_fields (p : ℚ) (n : Int) (t : ℚ) (s : Bool)
    (hp : (fixed6 p).length ≤ 14) (hn : (intChars n).length ≤ 14)
    (ht : (fixed6 t).length ≤ 10) :
    (periodLine p n t s).length = 44 ∧
    (periodLine p n t s).take 14 = fmtFixed 14 p ∧
    ((periodLine p n t s).drop 14).take 14 = fmtInt 14 n ∧
    ((periodLine p n t s).drop 28).take 10 = fmtFixed 10 t ∧
    (periodLine p n t s).drop 38 =
      [' ', ' '] ++ (if s then ['S', 'S'] else ['T', 'R']) ++ [' ', '\n'] := by
  have hlp : (fmtFixed 14 p).length = 14 := by
    simp [fmtFixed, padLeft]; omega
  have hln : (fmtInt 14 n).length = 14 := by
    simp [fmtInt, padLeft]; omega
  have hlt : (fmtFixed 10 t).length = 10 := by
    simp [fmtFixed, padLeft]; omega
  have htail : periodLine p n t s =
      fmtFixed 14 p ++ (fmtInt 14 n ++ (fmtFixed 10 t ++
        ([' '] ++ [' '] ++ (if s then ['S', 'S', ' '] else ['T', 'R', ' ']) ++ ['\n']))) := by
    simp [periodLine]
  refine ⟨?_, ?_, ?_, ?_, ?_⟩
  · simp [periodLine, hlp, hln, hlt]
    cases s <;> simp
  · rw [htail, List.take_left' hlp]
  · rw [htail, List.drop_left' hlp, List.take_left' hln]
  · have h28 : (periodLine p n t s).drop 28 =
        fmtFixed 10 t ++ (([' '] ++ [' '] ++
          (if s then ['S', 'S', ' '] else ['T', 'R', ' '])) ++ ['\n']) := by
      rw [htail]
      rw [show (28 : Nat) = 14 + 14 from rfl, ← List.drop_drop]
      rw [List.drop_left' hlp, List.drop_left' hln]
    rw [h28, List.take_left' hlt]
  · have h38 : (periodLine p n t s).drop 38 =
        ([' '] ++ [' '] ++ (if s then ['S', 'S', ' '] else ['T', 'R', ' '])) ++ ['\n'] := by
      rw [htail]
      rw [show (38 : Nat) = 14 + 24 from rfl, ← List.drop_drop]
      rw [List.drop_left' hlp]
      rw [show (24 : Nat) = 14 + 10 from rfl, ← List.drop_drop]
      rw [List.drop_left' hln, List.drop_left' hlt]
    rw [h38]
    cases s <;> decide

/-- Witness for C6 amended: the line for `perlen=1, nstp=1, tsmult=1,
steady` decomposes into its 14/14/10-wide fields and the tag suffix. -/
theorem periodLine_fields_witness :
    (fixed6 1).length ≤ 14 ∧ (intChars 1).length ≤ 14 ∧
    (fixed6 1).length ≤ 10 ∧
    ((periodLine 1 1 1 true).length = 44 ∧
     (periodLine 1 1 1 true).take 14 = fmtFixed 14 1 ∧
     ((periodLine 1 1 1 true).drop 14).take 14 = fmtInt 14 1 ∧
     ((periodLine 1 1 1 true).drop 28).take 10 = fmtFixed 10 1 ∧
     (periodLine 1 1 1 true).drop 38 =
       [' ', ' '] ++ (if true then ['S', 'S'] else ['T', 'R']) ++ [' ', '\n']) := by
  have hr : (round ((1 : ℚ) * 1000000) : ℤ) = 1000000 := by
    norm_num [round_eq]
  have hfx : fixed6 1 = ['1', '.', '0', '0', '0', '0', '0', '0'] := by
    simp only [fixed6, hr]
    decide
  refine ⟨by rw [hfx]; decide, by decide, by rw [hfx]; decide, ?_⟩
  exact periodLine_fields 1 1 1 true (by rw [hfx]; decide) (by decide)
    (by rw [hfx]; decide)

/-! ### Discretization file round trip (claim C3)

The file is modelled record by record, in the record order of
`ModflowDis.write_file` / `ModflowDis.load`: each numeric field of the
dimensions line and the per-period lines holds the value its printed
characters denote.  A 10d/14d integer field denotes its argument
exactly; a 14f/10f float field prints 6 decimal places, so it denotes
the argument rounded to 6 decimals (`round6`) and that is the value
`float()` recovers on load.  The delr/delc/top/botm array records pass
through the array codec (flopy.utils, not under src/), which per the
spec reads back what it wrote and does not touch the fields of claim
C3; the model keeps the stream aligned by construction. -/

/-- Dimension and stress-period state of a `ModflowDis` instance, the
fields claim C3 compares across a write/load round trip. -/
structure DisPeriodState where
  nlay : Nat
  nrow : Nat
  ncol : Nat
  nper : Nat
  itmuni : Int
  lenuni : Int
  perlen : List ℚ
  nstp : List Int
  tsmult : List ℚ
  steady : List Bool
deriving DecidableEq

/-- One written per-stress-period line (mfdis.py lines 399-407), as the
values its four whitespace-separated tokens denote: perlen and tsmult
as printed with 6 decimals, nstp exactly, and the stripped 2-letter
tag. -/
structure PeriodRecord where
  perlenTok : ℚ
  nstpTok : Int
  tsmultTok : ℚ
  tag : List Char
deriving DecidableEq

/-- A written discretization file: the six integers of the dimensions
line (10-character fields, values denoted exactly) and one period
record per stress period.  The laycbd line and the four array-codec
records sit between them in the stream but carry none of the fields of
claim C3. -/
structure DisFile where
  nlay : Nat
  nrow : Nat
  ncol : Nat
  nper : Nat
  itmuni : Int
  lenuni : Int
  periods : List PeriodRecord
deriving DecidableEq

/-- Embedding of `ModflowDis.write_file` (mfdis.py lines 373-408) on
the claim C3 fields: the dimensions line carries the six integers; for
each `t` in `range(nper)` one period line carries perlen (14f, hence
rounded to 6 decimals), nstp (14d, exact), tsmult (10f, rounded to 6
decimals) and the tag SS when steady else TR. -/
def writeDis (d : DisPeriodState) : DisFile where
  nlay := d.nlay
  nrow := d.nrow
  ncol := d.ncol
  nper := d.nper
  itmuni := d.itmuni
  lenuni := d.lenuni
  periods := (List.range d.nper).map fun t =>
    { perlenTok := round6 (d.perlen.getD t 0)
      nstpTok := d.nstp.getD t 0
      tsmultTok := round6 (d.tsmult.getD t 0)
      tag := if d.steady.getD t true then ['S', 'S'] else ['T', 'R'] }

/-- Embedding of the steady-flag parse in `ModflowDis.load` (mfdis.py
lines 515-518): False when the fourth token uppercases to TR, True for
anything else. -/
def loadSteadyTag (tag : List Char) : Bool :=
  if tag.map Char.toUpper = ['T', 'R'] then false else true

/-- Embedding of `ModflowDis.load` (mfdis.py lines 410-529) on the
claim C3 fields: the six integers of dataset 1, then for each of the
nper period lines perlen as float, nstp as int, tsmult as float and the
steady flag from the tag. -/
def loadDis (f : DisFile) : DisPeriodState where
  nlay := f.nlay
  nrow := f.nrow
  ncol := f.ncol
  nper := f.nper
  itmuni := f.itmuni
  lenuni := f.lenuni
  perlen := f.periods.map fun r => r.perlenTok
  nstp := f.periods.map fun r => r.nstpTok
  tsmult := f.periods.map fun r => r.tsmultTok
  steady := f.periods.map fun r => loadSteadyTag r.tag

/-- Mapping an index-read over the range of a list's length recovers
the mapped list. -/
theorem map_getD_range {α β : Type} (g : α → β) (d : α) :
    ∀ l : List α, (List.range l.length).map (fun t => g (l.getD t d)) = l.map g
  | [] => rfl
  | x :: xs => by
    rw [List.length_cons, List.range_succ_eq_map, List.map_cons, List.map_map]
    simp only [Function.comp, List.getD_cons_zero, List.getD_cons_succ, List.map_cons]
    exact congrArg (g x :: ·) (map_getD_range g d xs)

/-- Index-reading every position of a list in order recovers the
list. -/
theorem getD_range_id {α : Type} (d0 : α) (l : List α) :
    (List.range l.length).map (fun t => l.getD t d0) = l := by
  have h := map_getD_range id d0 l
  simpa using h

/-- The written SS/TR tag parses back to the steady flag it encoded. -/
theorem loadSteadyTag_roundtrip (b : Bool) :
    loadSteadyTag (if b then ['S', 'S'] else ['T', 'R']) = b := by
  cases b <;> decide

/-- Claim C3 amended: writing a discretization file and loading it back
preserves nlay, nrow, ncol and nper exactly and the nstp and steady
sequences elementwise exactly, while the loaded perlen and tsmult
sequences equal the source sequences rounded to the 6 decimal places
the 14f/10f fields print (hence equal whenever the source values are
exactly representable with 6 decimals). -/
theorem dis_roundtrip (d : DisPeriodState)
    (hper : d.perlen.length = d.nper) (hnst : d.nstp.length = d.nper)
    (hts : d.tsmult.length = d.nper) (hst : d.steady.length = d.nper) :
    (loadDis (writeDis d)).nlay = d.nlay ∧
    (loadDis (writeDis d)).nrow = d.nrow ∧
    (loadDis (writeDis d)).ncol = d.ncol ∧
    (loadDis (writeDis d)).nper = d.nper ∧
    (loadDis (writeDis d)).nstp = d.nstp ∧
    (loadDis (writeDis d)).steady = d.steady ∧
    (loadDis (writeDis d)).perlen = d.perlen.map round6 ∧
    (loadDis (writeDis d)).tsmult = d.tsmult.map round6 := by
  refine ⟨rfl, rfl, rfl, rfl, ?_, ?_, ?_, ?_⟩
  · simp only [loadDis, writeDis, List.map_map, Function.comp]
    rw [← hnst]
    exact getD_range_id 0 d.nstp
  · simp only [loadDis, writeDis, List.map_map]
    exact Eq.trans
      (congrArg (fun f => List.map f (List.range d.nper))
        (funext fun t => loadSteadyTag_roundtrip (d.steady.getD t true)))
      (by rw [← hst]; exact getD_range_id true d.steady)
  · simp only [loadDis, writeDis, List.map_map, Function.comp]
    rw [← hper]
    exact map_getD_range round6 0 d.perlen
  · simp only [loadDis, writeDis, List.map_map, Function.comp]
    rw [← hts]
    exact map_getD_range round6 0 d.tsmult

/-- Witness for C3 amended: a one-period state with perlen = 1/2,
nstp = 3, tsmult = 1, transient. -/
theorem dis_roundtrip_witness :
    ([(1 : ℚ) / 2].length = 1 ∧ [(3 : Int)].length = 1 ∧
      [(1 : ℚ)].length = 1 ∧ [false].length = 1) ∧
    ((loadDis (writeDis (DisPeriodState.mk 1 2 2 1 4 2 [1 / 2] [3] [1] [false]))).nstp
        = [3] ∧
     (loadDis (writeDis (DisPeriodState.mk 1 2 2 1 4 2 [1 / 2] [3] [1] [false]))).steady
        = [false] ∧
     (loadDis (writeDis (DisPeriodState.mk 1 2 2 1 4 2 [1 / 2] [3] [1] [false]))).perlen
        = [(1 : ℚ) / 2].map round6) := by
  have h := dis_roundtrip (DisPeriodState.mk 1 2 2 1 4 2 [1 / 2] [3] [1] [false])
    rfl rfl rfl rfl
  exact ⟨⟨rfl, rfl, rfl, rfl⟩, h.2.2.2.2.1, h.2.2.2.2.2.1, h.2.2.2.2.2.2.1⟩

/-- One-period state whose perlen is 1e-8, smaller than the 6 decimal
places the 14f field can carry. -/
def roundtripScenario : DisPeriodState where
  nlay := 1
  nrow := 1
  ncol := 1
  nper := 1
  itmuni := 4
  lenuni := 2
  perlen := [1 / 100000000]
  nstp := [1]
  tsmult := [1]
  steady := [true]

/-- Claim C3 counterexample: with perlen = 1e-8 the 14f field prints
0.000000, so the loaded perlen sequence is [0], not the source
sequence. -/
theorem dis_roundtrip_counterexample :
    (loadDis (writeDis roundtripScenario)).perlen = [0] ∧
    (loadDis (writeDis roundtripScenario)).perlen ≠ roundtripScenario.perlen := by
  have h6 : round6 (1 / 100000000 : ℚ) = 0 := by
    norm_num [round6, round_eq]
  have hval0 : (loadDis (writeDis roundtripScenario)).perlen =
      [round6 (1 / 100000000 : ℚ)] := rfl
  have hval : (loadDis (writeDis roundtripScenario)).perlen = [(0 : ℚ)] := by
    rw [hval0, h6]
  refine ⟨hval, ?_⟩
  rw [hval]
  simp only [roundtripScenario, ne_eq, List.cons.injEq, and_true]
  norm_num

/-! ### Transient per-period arrays (ModflowEvt, claims C8-C10) -/

/-- A concrete per-period array value together with its own internal
sub-flag, the (non-negative, hence modelled as Nat) value the control
flag takes in the period that supplies the array. -/
structure TransientEntry (α : Type) where
  subflag : Nat
  arr : α

/-- Modelled from the spec: `Transient2d.get_kper_entry`
(flopy.utils.util_array is not under src/; only its caller
`ModflowEvt.write_file` is).  Spec section 4.4: for a period that
supplies a concrete array the result is the array's own non-negative
sub-flag together with the array; for any other period the result is a
negative flag and no payload, meaning repeat the previous array. -/
def get_kper_entry {α : Type} (data : Nat → Option (TransientEntry α)) (p : Nat) :
    Int × Option α :=
  match data p with
  | some e => ((e.subflag : Int), some e.arr)
  | none => (-1, none)

/-- Embedding of one field's slice of the per-period read loop of
`ModflowEvt.load` (mfevt.py lines 219-280): the running current value
starts empty; a period whose control flag is non-negative reads a new
array (the entry's payload), which becomes current; every period
stores the current value; a period whose flag is negative stores the
most recently read array unchanged. -/
def readTransient {α : Type} (cur : Option α) :
    List (Int × Option α) → List (Option α)
  | [] => []
  | e :: rest =>
    let cur2 := if 0 ≤ e.1 then e.2 else cur
    cur2 :: readTransient cur2 rest

/-- Nearest concrete array supplied at or before period p, if any. -/
def lastConcrete {α : Type} (data : Nat → Option (TransientEntry α)) : Nat → Option α
  | 0 => (data 0).map TransientEntry.arr
  | p + 1 =>
    match data (p + 1) with
    | some e => some e.arr
    | none => lastConcrete data p

/-- Folding the carry-forward step over a list of period entries. -/
def resolveEntries {α : Type} (cur : Option α) (l : List (Int × Option α)) : Option α :=
  l.foldl (fun c e => if 0 ≤ e.1 then e.2 else c) cur

/-- Element p of the read loop's output is the carry-forward fold of
the first p+1 entries. -/
theorem readTransient_getElem {α : Type} :
    ∀ (l : List (Int × Option α)) (cur : Option α) (p : Nat), p < l.length →
      (readTransient cur l)[p]? = some (resolveEntries cur (l.take (p + 1)))
  | [], _, p, hp => by simp at hp
  | e :: rest, cur, 0, _ => by
    simp [readTransient, resolveEntries]
  | e :: rest, cur, p + 1, hp => by
    have ih := readTransient_getElem rest (if 0 ≤ e.1 then e.2 else cur) p
      (by simpa using hp)
    simpa [readTransient, resolveEntries] using ih

/-- Folding the carry-forward step over the entries of periods
0..p resolves to the nearest concrete array at or before p. -/
theorem resolveEntries_lastConcrete {α : Type}
    (data : Nat → Option (TransientEntry α)) :
    ∀ p : Nat,
      resolveEntries none ((List.range (p + 1)).map (get_kper_entry data)) =
        lastConcrete data p
  | 0 => by
    cases h : data 0 <;>
      simp [resolveEntries, get_kper_entry, lastConcrete, h,
        List.range_succ, List.range_zero]
  | p + 1 => by
    have ih := resolveEntries_lastConcrete data p
    rw [List.range_succ, List.map_append]
    cases h : data (p + 1) with
    | none =>
      simp only [resolveEntries, List.foldl_append] at ih ⊢
      rw [ih]
      simp [get_kper_entry, lastConcrete, h]
    | some e =>
      simp only [resolveEntries, List.foldl_append] at ih ⊢
      rw [ih]
      simp [get_kper_entry, lastConcrete, h]

/-- Claim C8: with per-period data supplying concrete arrays only at
some periods, the period entry carries a non-negative flag and the
supplied array exactly at the supplying periods and the negative-flag
no-payload repeat entry everywhere else, and the read loop resolves
period p to the nearest concrete array supplied at or before p (the
array most recently read). -/
theorem transient_carry_forward {α : Type}
    (data : Nat → Option (TransientEntry α)) (nper p : Nat) (hp : p < nper) :
    (0 ≤ (get_kper_entry data p).1 ↔ (data p).isSome = true) ∧
    (get_kper_entry data p).2 = (data p).map TransientEntry.arr ∧
    ((data p).isSome = false → get_kper_entry data p = (-1, none)) ∧
    (readTransient none ((List.range nper).map (get_kper_entry data)))[p]? =
      some (lastConcrete data p) := by
  refine ⟨?_, ?_, ?_, ?_⟩
  · cases h : data p <;> simp [get_kper_entry, h]
  · cases h : data p <;> simp [get_kper_entry, h]
  · cases h : data p <;> simp [get_kper_entry, h]
  · have hlen : p < ((List.range nper).map (get_kper_entry data)).length := by
      simpa using hp
    rw [readTransient_getElem _ none p hlen]
    rw [← List.map_take, List.take_range]
    have hmin : min (p + 1) nper = p + 1 := by omega
    rw [hmin, resolveEntries_lastConcrete data p]

/-- The spec scenario data for claim C8: concrete integer arrays 10 and
40 supplied only at periods 0 and 3 of 5 (sub-flags 7 and 8). -/
def scenarioData : Nat → Option (TransientEntry Int) := fun p =>
  ([some ⟨7, 10⟩, none, none, some ⟨8, 40⟩, none] :
    List (Option (TransientEntry Int))).getD p none

/-- Witness for C8: in the 5-period scenario with concrete arrays only
at periods 0 and 3, period 4 gets a negative-flag repeat entry that the
read loop resolves to the period-3 array 40. -/
theorem transient_carry_forward_witness :
    4 < 5 ∧
    ((0 ≤ (get_kper_entry scenarioData 4).1 ↔ (scenarioData 4).isSome = true) ∧
     (get_kper_entry scenarioData 4).2 = (scenarioData 4).map TransientEntry.arr ∧
     ((scenarioData 4).isSome = false → get_kper_entry scenarioData 4 = (-1, none)) ∧
     (readTransient none ((List.range 5).map (get_kper_entry scenarioData)))[4]? =
       some (lastConcrete scenarioData 4)) :=
  ⟨by decide, transient_carry_forward scenarioData 5 4 (by decide)⟩

/-- The five read-side entries of the scenario resolve to
[10, 10, 10, 40, 40]: each repeat period reuses the nearest preceding
concrete array. -/
theorem transient_scenario_resolution :
    readTransient none ((List.range 5).map (get_kper_entry scenarioData)) =
      [some 10, some 10, some 10, some 40, some 40] ∧
    (get_kper_entry scenarioData 0).1 = 7 ∧
    (get_kper_entry scenarioData 1).1 = -1 ∧
    (get_kper_entry scenarioData 2).1 = -1 ∧
    (get_kper_entry scenarioData 3).1 = 8 ∧
    (get_kper_entry scenarioData 4).1 = -1 := by decide

/-! ### Evapotranspiration file ievt handling (claim C9) -/

/-- The four per-period array fields of the evapotranspiration
package. -/
inductive EvtField where
  | surf
  | evtr
  | exdp
  | ievt
deriving DecidableEq

/-- One record written to the evapotranspiration file for a stress
period: the dataset-5 control line with its four flags, or an array
payload for one named field. -/
inductive EvtRecord where
  | control (insurf inevtr inexdp inievt : Int)
  | payload (f : EvtField)
deriving DecidableEq

/-- Embedding of the per-period write in `ModflowEvt.write_file`
(mfevt.py lines 121-137): the control line always carries all four
flags; then surf, evtr, exdp are each written when their flag is
non-negative, and ievt is written only when nevtop = 2 and its flag is
non-negative. -/
def writeEvtPeriod (nevtop insurf inevtr inexdp inievt : Int) : List EvtRecord :=
  EvtRecord.control insurf inevtr inexdp inievt ::
    ((if 0 ≤ insurf then [EvtRecord.payload .surf] else []) ++
     (if 0 ≤ inevtr then [EvtRecord.payload .evtr] else []) ++
     (if 0 ≤ inexdp then [EvtRecord.payload .exdp] else []) ++
     (if nevtop = 2 ∧ 0 ≤ inievt then [EvtRecord.payload .ievt] else []))

/-- Embedding of the per-period reads in `ModflowEvt.load` (mfevt.py
lines 223-280), as the ordered list of fields whose flag token is
parsed and whose array is read from the stream: insurf, inevtr, inexdp
are always parsed and their arrays read when the flag is non-negative;
the inievt token is parsed, and its array read when non-negative, only
when nevtop = 2. -/
def loadEvtPeriodReads (nevtop insurf inevtr inexdp inievt : Int) : List EvtField :=
  (if 0 ≤ insurf then [EvtField.surf] else []) ++
  (if 0 ≤ inevtr then [EvtField.evtr] else []) ++
  (if 0 ≤ inexdp then [EvtField.exdp] else []) ++
  (if nevtop = 2 then (if 0 ≤ inievt then [EvtField.ievt] else []) else [])

/-- Embedding of the dataset-5 control line characters written by
`ModflowEvt.write_file` (mfevt.py line 128): four 10-character integer
fields, a space, a hash, a space, the comment, newline. -/
def evtControlLine (insurf inevtr inexdp inievt : Int) (comment : List Char) : List Char :=
  fmtInt 10 insurf ++ fmtInt 10 inevtr ++ fmtInt 10 inexdp ++ fmtInt 10 inievt ++
    ' ' :: '#' :: ' ' :: (comment ++ ['\n'])

/-- The control line as claim C9 describes it for a mode other than 2:
the ievt flag skipped entirely, leaving three integer fields. -/
def evtControlLineClaimed (insurf inevtr inexdp : Int) (comment : List Char) : List Char :=
  fmtInt 10 insurf ++ fmtInt 10 inevtr ++ fmtInt 10 inexdp ++
    ' ' :: '#' :: ' ' :: (comment ++ ['\n'])

/-- Claim C9 counterexample: with nevtop = 3 and all flags negative,
write_file still emits the inievt flag: the period's records consist of
a control record carrying all four flags (no payloads), and the control
line written has four 10-character integer fields, not the three the
claim's "skip the ievt flag entirely" would give. -/
theorem evt_ievt_flag_counterexample :
    writeEvtPeriod 3 (-1) (-1) (-1) (-1) =
      [EvtRecord.control (-1) (-1) (-1) (-1)] ∧
    evtControlLine (-1) (-1) (-1) (-1) [] ≠ evtControlLineClaimed (-1) (-1) (-1) [] := by
  decide

/-- Claim C9 amended: the ievt array payload is written exactly when
nevtop = 2 and its flag is non-negative, and it is read exactly when
nevtop = 2 and its flag is non-negative (for other nevtop values load
does not even parse the inievt token); but write_file always emits the
inievt flag as the fourth field of the control line, for every
nevtop. -/
theorem evt_ievt_handling (nevtop insurf inevtr inexdp inievt : Int) :
    (EvtRecord.payload EvtField.ievt ∈ writeEvtPeriod nevtop insurf inevtr inexdp inievt
      ↔ nevtop = 2 ∧ 0 ≤ inievt) ∧
    (writeEvtPeriod nevtop insurf inevtr inexdp inievt).head? =
      some (EvtRecord.control insurf inevtr inexdp inievt) ∧
    (EvtField.ievt ∈ loadEvtPeriodReads nevtop insurf inevtr inexdp inievt
      ↔ nevtop = 2 ∧ 0 ≤ inievt) := by
  refine ⟨?_, rfl, ?_⟩
  · by_cases h1 : 0 ≤ insurf <;> by_cases h2 : 0 ≤ inevtr <;>
      by_cases h3 : 0 ≤ inexdp <;> by_cases h4 : nevtop = 2 ∧ 0 ≤ inievt <;>
      simp [writeEvtPeriod, h1, h2, h3, h4]
  · by_cases h1 : 0 ≤ insurf <;> by_cases h2 : 0 ≤ inevtr <;>
      by_cases h3 : 0 ≤ inexdp <;> by_cases h4 : nevtop = 2 <;>
      by_cases h5 : 0 ≤ inievt <;>
      simp [loadEvtPeriodReads, h1, h2, h3, h4, h5]

/-! ### Cell-by-cell budget flag normalization (claim C10) -/

/-- Embedding of the ipakcb normalization in `ModflowEvt.__init__`
(mfevt.py lines 81-84): a nonzero argument is stored as 53, zero is
stored as 0. -/
def initIpakcb (ipakcb : Int) : Int :=
  if ipakcb ≠ 0 then 53 else 0

/-- Embedding of the ipakcb handling in `ModflowEvt.load` (mfevt.py
lines 197-203): the local starts at 0; when the second token of
dataset 2 parses to a nonzero integer it becomes 53 (a missing or
unparsable token leaves 0); load then passes this value to the
constructor. -/
def loadIpakcb (tok : Option Int) : Int :=
  match tok with
  | some v => if v ≠ 0 then 53 else 0
  | none => 0

/-- Claim C10: both the constructor and load normalize ipakcb: the
stored value is 53 for every nonzero input and 0 for a zero input, and
the value load hands to the constructor is already a fixed point of the
constructor's normalization, so no other nonzero caller value ever
survives. -/
theorem ipakcb_normalized (i v : Int) :
    initIpakcb i = (if i = 0 then 0 else 53) ∧
    loadIpakcb (some v) = (if v = 0 then 0 else 53) ∧
    loadIpakcb none = 0 ∧
    initIpakcb (loadIpakcb (some v)) = loadIpakcb (some v) ∧
    initIpakcb (loadIpakcb none) = loadIpakcb none := by
  refine ⟨?_, ?_, by decide, ?_, by decide⟩
  · by_cases h : i = 0 <;> simp [initIpakcb, h]
  · by_cases h : v = 0 <;> simp [loadIpakcb, h]
  · by_cases h : v = 0 <;> simp [initIpakcb, loadIpakcb, h]

end Flopy
